import Mathlib

/-!
Shallow embedding of the touch-session core of `src/script.js`
(the second, current version of the file: global state `touchesData`,
`lastTouchTime`, `showingResult`, `locked`, `teams`, `resultTimer`,
`resultOverlay`, and the functions `handleTouchStart`, `handleTouchMove`,
`handleTouchEnd`, the inactivity check inside `drawLoop`,
`lockAndShowResult`, and `resetAll`).

Modelling conventions:
* Touch identifiers are natural numbers.  A JS object keyed by integer-like
  strings enumerates its keys in ascending numeric order, so `touchesData`
  is embedded as an association list sorted by ascending key; `setKey`,
  `delKey` and `getKey` mirror property write / `delete` / read.
* Client coordinates are integers (no arithmetic is ever performed on them).
* `Math.random()`-derived draws are injected: `randIdx` for the choose-mode
  winner index and `rand : Nat → Nat` giving the Fisher–Yates draw
  `Math.floor(Math.random() * (i + 1))` for each loop index `i`.
* `Date.now()` is injected as a `now : Nat` argument.
* `setTimeout(resetAll, 10000)` / `clearTimeout` are embedded as an optional
  absolute deadline `resultTimer : Option Nat`; `timerFire` models the
  event loop running a pending timer whose deadline has arrived.
* DOM rendering (canvas drawing, the hint element) is not part of the state;
  the result overlay's HTML string and visibility are kept, since they carry
  the displayed Result.
-/

/-- Palette of the 10 touch colors (`COLORS` in the source). -/
def COLORS : List String :=
  ["#e6194b", "#3cb44b", "#ffe119", "#0082c8", "#f58231",
   "#911eb4", "#46f0f0", "#f032e6", "#d2f53c", "#fabebe"]

/-- Friendly names of the palette colors (`COLOR_NAMES` in the source). -/
def COLOR_NAMES : List (String × String) :=
  [("#e6194b", "Red"), ("#3cb44b", "Green"), ("#ffe119", "Yellow"),
   ("#0082c8", "Blue"), ("#f58231", "Orange"), ("#911eb4", "Purple"),
   ("#46f0f0", "Cyan"), ("#f032e6", "Magenta"), ("#d2f53c", "Lime"),
   ("#fabebe", "Pink")]

/-- Source `getColorName`: `COLOR_NAMES[colorCode] || colorCode`. -/
def getColorName (colorCode : String) : String :=
  (COLOR_NAMES.lookup colorCode).getD colorCode

/-- Source constant `INACTIVITY_TIMEOUT` (milliseconds). -/
def INACTIVITY_TIMEOUT : Nat := 5000

/-- Milliseconds until the automatic reset after a result is shown
(the literal `10000` in `lockAndShowResult`). -/
def AUTO_RESET_DELAY : Nat := 10000

/-- One entry of `touchesData`: `{ x, y, color, angle, radius, active }`. -/
structure Contact where
  x : Int
  y : Int
  color : String
  angle : Int
  radius : Int
  active : Bool
  deriving DecidableEq, Repr

/-- The object literal stored by `handleTouchStart` for identifier `id` at
client coordinates `(x, y)`. -/
def mkContact (id : Nat) (x y : Int) : Contact :=
  { x := x
    y := y
    color := COLORS.getD (id % COLORS.length) ""
    angle := 0
    radius := 100
    active := true }

/-- Property write `obj[id] = v` on an integer-keyed JS object, keeping the
association list sorted by ascending key (JS enumeration order). -/
def setKey {β : Type} : List (Nat × β) → Nat → β → List (Nat × β)
  | [], id, v => [(id, v)]
  | (k, w) :: rest, id, v =>
    if id < k then (id, v) :: (k, w) :: rest
    else if id = k then (id, v) :: rest
    else (k, w) :: setKey rest id v

/-- Property read `obj[id]` on an integer-keyed JS object. -/
def getKey {β : Type} : List (Nat × β) → Nat → Option β
  | [], _ => none
  | (k, w) :: rest, id => if id = k then some w else getKey rest id

/-- Property deletion `delete obj[id]` on an integer-keyed JS object. -/
def delKey {β : Type} : List (Nat × β) → Nat → List (Nat × β)
  | [], _ => []
  | (k, w) :: rest, id => if id = k then rest else (k, w) :: delKey rest id

/-- The two values of the mode radio group. -/
inductive Mode where
  | choose
  | team
  deriving DecidableEq, Repr

/-- The mutable globals of the script that the touch-session core reads and
writes: the registry, the two flags, the inactivity clock, the team
partition, the auto-reset timer, and the result overlay's text and
visibility. -/
structure SessionState where
  touchesData : List (Nat × Contact)
  lastTouchTime : Nat
  showingResult : Bool
  locked : Bool
  teams : List (List (Nat × String))
  resultTimer : Option Nat
  resultText : String
  resultShown : Bool
  deriving DecidableEq, Repr

/-- The state `resetAll` establishes: empty registry, both flags cleared,
clock zeroed, teams emptied, overlay hidden and blank, timer cancelled. -/
def resetState : SessionState :=
  { touchesData := []
    lastTouchTime := 0
    showingResult := false
    locked := false
    teams := []
    resultTimer := none
    resultText := ""
    resultShown := false }

/-- Source `resetAll`: unconditionally reestablishes the initial state
(and `clearTimeout`s any pending auto-reset timer). -/
def resetAll (_s : SessionState) : SessionState := resetState

/-- Source `handleTouchStart`: ignored while locked; otherwise clears
`showingResult`, inserts each changed touch while the registry holds fewer
than 10 contacts, and finally calls `updateLastTouchTime()`. -/
def handleTouchStart (touches : List (Nat × Int × Int)) (now : Nat)
    (s : SessionState) : SessionState :=
  if s.locked then s
  else
    let s1 := { s with showingResult := false }
    let s2 := touches.foldl
      (fun st t =>
        if st.touchesData.length < 10 then
          { st with touchesData := setKey st.touchesData t.1 (mkContact t.1 t.2.1 t.2.2) }
        else st) s1
    { s2 with lastTouchTime := now }

/-- Source `handleTouchMove`: ignored while locked; otherwise updates the
position of each changed touch that is present; deliberately does not
touch `lastTouchTime`. -/
def handleTouchMove (touches : List (Nat × Int × Int))
    (s : SessionState) : SessionState :=
  if s.locked then s
  else
    { s with
        touchesData := touches.foldl
          (fun reg t =>
            match getKey reg t.1 with
            | some c => setKey reg t.1 { c with x := t.2.1, y := t.2.2 }
            | none => reg) s.touchesData }

/-- Source `handleTouchEnd` (also bound to `touchcancel`): ignored while
locked; otherwise clears `showingResult`, deletes each changed touch that
is present, and finally calls `updateLastTouchTime()`. -/
def handleTouchEnd (ids : List Nat) (now : Nat)
    (s : SessionState) : SessionState :=
  if s.locked then s
  else
    let s1 := { s with showingResult := false }
    let s2 :=
      { s1 with
          touchesData := ids.foldl
            (fun reg id =>
              match getKey reg id with
              | some _ => delKey reg id
              | none => reg) s1.touchesData }
    { s2 with lastTouchTime := now }

/-- HTML fragment produced for one colored name:
a span whose style carries the color and whose text is the friendly name. -/
def colorSpan (c : String) : String :=
  "<span style=\"color:" ++ c ++ "\">" ++ getColorName c ++ "</span>"

/-- One line of the team-mode overlay text for team `i` (0-based). -/
def teamLine (i : Nat) (team : List (Nat × String)) : String :=
  "Team " ++ toString (i + 1) ++ ": " ++
    String.intercalate ", " (team.map (fun m => colorSpan m.2)) ++ "<br>"

/-- The multiline overlay text built by the `teams.forEach` loop. -/
def buildTeamsText (ts : List (List (Nat × String))) : String :=
  String.join (ts.enum.map (fun p => teamLine p.1 p.2))

/-- The clamping of `parseInt(countInput.value, 10)` in the team branch:
`if (teamCount < 1) teamCount = 1; if (teamCount > activeKeys.length)
teamCount = activeKeys.length;`. -/
def clampTeamCount (k : Int) (n : Nat) : Nat :=
  if k < 1 then 1
  else if (n : Int) < k then n
  else k.toNat

/-- The destructuring swap `[arr[i], arr[j]] = [arr[j], arr[i]]`;
identity when either index is out of range (never the case in the shuffle
loop, where both indices lie in `[0, length)`). -/
def listSwap {α : Type} (l : List α) (i j : Nat) : List α :=
  match l[i]?, l[j]? with
  | some a, some b => (l.set i b).set j a
  | _, _ => l

/-- The Fisher–Yates loop `for (let i = length - 1; i > 0; i--)`:
iteration `i` swaps positions `i` and `rand i`, then `i` decrements. -/
def fyLoop {α : Type} (rand : Nat → Nat) : Nat → List α → List α
  | 0, l => l
  | i + 1, l => fyLoop rand i (listSwap l (i + 1) (rand (i + 1)))

/-- The whole shuffle of `touchArray` in the team branch. -/
def fisherYates {α : Type} (rand : Nat → Nat) (l : List α) : List α :=
  fyLoop rand (l.length - 1) l

/-- The round-robin distribution loop: `teams[index].push(touchObj);
index = (index + 1) % teamCount;`. -/
def distributeAux {α : Type} (k : Nat) :
    List α → List (List α) → Nat → List (List α)
  | [], ts, _ => ts
  | x :: xs, ts, idx =>
    distributeAux k xs (ts.set idx (ts.getD idx [] ++ [x])) ((idx + 1) % k)

/-- Creation of `teamCount` empty teams followed by the distribution loop. -/
def distribute {α : Type} (k : Nat) (l : List α) : List (List α) :=
  distributeAux k l (List.replicate k []) 0

/-- Source `lockAndShowResult`: sets `locked` and `showingResult`, returns
early when the registry is empty, otherwise computes the mode's result
(winner or team partition), fills the overlay, and (re)schedules the
10-second auto-reset timer. -/
def lockAndShowResult (mode : Mode) (k : Int) (randIdx : Nat)
    (rand : Nat → Nat) (now : Nat) (s : SessionState) : SessionState :=
  let s1 := { s with locked := true, showingResult := true }
  let activeKeys := s1.touchesData.map Prod.fst
  if activeKeys.length = 0 then s1
  else
    let s2 :=
      match mode with
      | Mode.choose =>
        let chosenKey := activeKeys.getD randIdx 0
        let reg := s1.touchesData.map
          (fun (e : Nat × Contact) =>
            if e.1 ≠ chosenKey then (e.1, { e.2 with active := false }) else e)
        let chosenColor := ((getKey reg chosenKey).map Contact.color).getD ""
        { s1 with
            touchesData := reg
            resultText := "Winner: " ++ colorSpan chosenColor
            resultShown := true }
      | Mode.team =>
        let teamCount := clampTeamCount k activeKeys.length
        let touchArray := s1.touchesData.map
          (fun (e : Nat × Contact) => (e.1, e.2.color))
        let shuffled := fisherYates rand touchArray
        let ts := distribute teamCount shuffled
        { s1 with
            teams := ts
            resultText := buildTeamsText ts
            resultShown := true }
    { s2 with resultTimer := some (now + AUTO_RESET_DELAY) }

/-- The inactivity condition checked each animation frame inside `drawLoop`:
`!locked && !showingResult && (Date.now() - lastTouchTime >
INACTIVITY_TIMEOUT) && Object.keys(touchesData).length > 0`. -/
def shouldLock (now : Nat) (s : SessionState) : Bool :=
  !s.locked && !s.showingResult &&
    decide (INACTIVITY_TIMEOUT < now - s.lastTouchTime) &&
    decide (0 < s.touchesData.length)

/-- The state-transition portion of one `drawLoop` tick: when the
inactivity condition holds it calls `lockAndShowResult`, otherwise the
session state is untouched (drawing is presentation only). -/
def drawLoopStep (mode : Mode) (k : Int) (randIdx : Nat)
    (rand : Nat → Nat) (now : Nat) (s : SessionState) : SessionState :=
  if shouldLock now s then lockAndShowResult mode k randIdx rand now s else s

/-- The event loop running a due auto-reset timer: a pending
`setTimeout(resetAll, 10000)` whose deadline has arrived runs `resetAll`;
a cancelled (absent) timer never fires. -/
def timerFire (now : Nat) (s : SessionState) : SessionState :=
  match s.resultTimer with
  | some t => if t ≤ now then resetAll s else s
  | none => s

/-- Characterization helper for the round-robin loop: the elements a single
team labelled `j` receives when the dealing index currently stands at `idx`
and the remaining undealt elements are the given list. -/
def roundRobinPicks {α : Type} (k j : Nat) : Nat → List α → List α
  | _, [] => []
  | idx, x :: xs =>
    (if idx = j then [x] else []) ++ roundRobinPicks k j ((idx + 1) % k) xs

/-- Well-formedness of the embedded registry: keys strictly ascending
(the enumeration order of integer-like keys of a JS object). -/
def SortedReg {β : Type} (l : List (Nat × β)) : Prop :=
  l.Pairwise (fun a b => a.1 < b.1)

/-- Raw touch input events as delivered to the three handlers
(`touchend` and `touchcancel` are bound to the same handler). -/
inductive TouchEvent where
  | down (touches : List (Nat × Int × Int)) (now : Nat)
  | move (touches : List (Nat × Int × Int))
  | lift (ids : List Nat) (now : Nat)
  | cancel (ids : List Nat) (now : Nat)

/-- Dispatch of one raw touch event to its handler. -/
def stepEvent (s : SessionState) : TouchEvent → SessionState
  | TouchEvent.down touches now => handleTouchStart touches now s
  | TouchEvent.move touches => handleTouchMove touches s
  | TouchEvent.lift ids now => handleTouchEnd ids now s
  | TouchEvent.cancel ids now => handleTouchEnd ids now s

/-- Folding a whole sequence of touch events over a state. -/
def runEvents (s : SessionState) (evs : List TouchEvent) : SessionState :=
  evs.foldl stepEvent s

/-- Concrete locked state used to exercise the theorems below. -/
def lockedSample : SessionState :=
  { resetState with
      locked := true
      touchesData := [(3, mkContact 3 1 2)]
      resultTimer := some 42 }

/-- Concrete open state holding one contact. -/
def sampleOne : SessionState :=
  { resetState with
      touchesData := [(1, mkContact 1 2 3)]
      lastTouchTime := 100 }

/-- Concrete open state holding two contacts. -/
def sampleTwo : SessionState :=
  { resetState with
      touchesData := [(1, mkContact 1 0 0), (4, mkContact 4 5 6)]
      lastTouchTime := 10 }

/-- Concrete open state holding ten contacts (the capacity). -/
def sampleTen : SessionState :=
  { resetState with
      touchesData :=
        [(0, mkContact 0 0 0), (1, mkContact 1 0 0), (2, mkContact 2 0 0),
         (3, mkContact 3 0 0), (4, mkContact 4 0 0), (5, mkContact 5 0 0),
         (6, mkContact 6 0 0), (7, mkContact 7 0 0), (8, mkContact 8 0 0),
         (9, mkContact 9 0 0)]
      lastTouchTime := 7 }

/-! ### Association-list lemmas -/

theorem getKey_setKey {β : Type} (l : List (Nat × β)) (id id' : Nat) (v : β) :
    getKey (setKey l id v) id' = if id' = id then some v else getKey l id' := by
  induction l with
  | nil => simp [setKey, getKey]
  | cons hd tl ih =>
    obtain ⟨k, w⟩ := hd
    by_cases h1 : id < k
    · simp only [setKey, if_pos h1, getKey]
    · by_cases h2 : id = k
      · subst h2
        simp only [setKey, if_neg h1, if_pos rfl, getKey]
        by_cases h3 : id' = id
        · simp [h3]
        · simp [h3]
      · simp only [setKey, if_neg h1, if_neg h2, getKey]
        by_cases h4 : id' = k
        · have h5 : id' ≠ id := by omega
          have h6 : ¬ k = id := by omega
          simp [h4, h5, h6]
        · simp [h4, ih]

theorem setKey_length_le {β : Type} (l : List (Nat × β)) (id : Nat) (v : β) :
    (setKey l id v).length ≤ l.length + 1 := by
  induction l with
  | nil => simp [setKey]
  | cons hd tl ih =>
    obtain ⟨k, w⟩ := hd
    simp only [setKey]
    split_ifs <;> simp only [List.length_cons] <;> omega

theorem delKey_length_le {β : Type} (l : List (Nat × β)) (id : Nat) :
    (delKey l id).length ≤ l.length := by
  induction l with
  | nil => simp [delKey]
  | cons hd tl ih =>
    obtain ⟨k, w⟩ := hd
    simp only [delKey]
    split_ifs <;> simp only [List.length_cons] <;> omega

theorem getKey_some_key_mem {β : Type} {l : List (Nat × β)} {id : Nat} {c : β}
    (h : getKey l id = some c) : id ∈ l.map Prod.fst := by
  induction l with
  | nil => simp [getKey] at h
  | cons hd tl ih =>
    obtain ⟨k, w⟩ := hd
    simp only [getKey] at h
    split_ifs at h with h1
    · subst h1; simp
    · simpa using Or.inr (ih h)

theorem mem_setKey {β : Type} {a : Nat × β} :
    ∀ {l : List (Nat × β)} {id : Nat} {v : β},
      a ∈ setKey l id v → a.1 = id ∨ a ∈ l := by
  intro l
  induction l with
  | nil =>
    intro id v h
    simp only [setKey, List.mem_singleton] at h
    left; rw [h]
  | cons hd tl ih =>
    intro id v h
    obtain ⟨k, w⟩ := hd
    simp only [setKey] at h
    split_ifs at h with h1 h2
    · rcases List.mem_cons.mp h with h3 | h3
      · left; rw [h3]
      · right; exact h3
    · rcases List.mem_cons.mp h with h3 | h3
      · left; rw [h3]
      · right; exact List.mem_cons_of_mem _ h3
    · rcases List.mem_cons.mp h with h3 | h3
      · right; rw [h3]; exact List.mem_cons_self _ _
      · rcases ih h3 with h4 | h4
        · left; exact h4
        · right; exact List.mem_cons_of_mem _ h4

theorem setKey_sorted {β : Type} {l : List (Nat × β)} (hs : SortedReg l)
    (id : Nat) (v : β) : SortedReg (setKey l id v) := by
  induction l with
  | nil => simp [setKey, SortedReg]
  | cons hd tl ih =>
    obtain ⟨k, w⟩ := hd
    rw [SortedReg, List.pairwise_cons] at hs
    obtain ⟨hlt, htl⟩ := hs
    simp only [setKey]
    split_ifs with h1 h2
    · rw [SortedReg, List.pairwise_cons]
      refine ⟨?_, List.pairwise_cons.mpr ⟨hlt, htl⟩⟩
      intro a ha
      rcases List.mem_cons.mp ha with h | h
      · rw [h]; exact h1
      · exact lt_trans h1 (hlt a h)
    · rw [SortedReg, List.pairwise_cons]
      refine ⟨fun a ha => ?_, htl⟩
      have := hlt a ha
      simp only at this ⊢
      omega
    · rw [SortedReg, List.pairwise_cons]
      constructor
      · intro a ha
        rcases mem_setKey ha with h | h
        · rw [h]; omega
        · exact hlt a h
      · exact ih htl

theorem mem_delKey {β : Type} {a : Nat × β} :
    ∀ {l : List (Nat × β)} {id : Nat}, a ∈ delKey l id → a ∈ l := by
  intro l
  induction l with
  | nil => intro id h; simp [delKey] at h
  | cons hd tl ih =>
    intro id h
    obtain ⟨k, w⟩ := hd
    simp only [delKey] at h
    split_ifs at h with h1
    · exact List.mem_cons_of_mem _ h
    · rcases List.mem_cons.mp h with h2 | h2
      · rw [h2]; exact List.mem_cons_self _ _
      · exact List.mem_cons_of_mem _ (ih h2)

theorem delKey_sorted {β : Type} {l : List (Nat × β)} (hs : SortedReg l)
    (id : Nat) : SortedReg (delKey l id) := by
  induction l with
  | nil => simp [delKey, SortedReg]
  | cons hd tl ih =>
    obtain ⟨k, w⟩ := hd
    rw [SortedReg, List.pairwise_cons] at hs
    obtain ⟨hlt, htl⟩ := hs
    simp only [delKey]
    split_ifs with h1
    · exact htl
    · rw [SortedReg, List.pairwise_cons]
      exact ⟨fun a ha => hlt a (mem_delKey ha), ih htl⟩

theorem setKey_length_of_present {β : Type} {l : List (Nat × β)} {id : Nat}
    {c : β} (hs : SortedReg l) (h : getKey l id = some c) (v : β) :
    (setKey l id v).length = l.length := by
  induction l with
  | nil => simp [getKey] at h
  | cons hd tl ih =>
    obtain ⟨k, w⟩ := hd
    rw [SortedReg, List.pairwise_cons] at hs
    obtain ⟨hlt, htl⟩ := hs
    simp only [getKey] at h
    by_cases h1 : id = k
    · subst h1
      simp [setKey]
    · rw [if_neg h1] at h
      have hmem : id ∈ tl.map Prod.fst := getKey_some_key_mem h
      have hgt : k < id := by
        rcases List.mem_map.mp hmem with ⟨a, ha, hfst⟩
        have := hlt a ha
        omega
      simp only [setKey, if_neg (by omega : ¬ id < k), if_neg h1,
        List.length_cons, ih htl h]

/-! ### Permutation lemmas for the swap and the Fisher–Yates loop -/

theorem set_getElem_self {α : Type} {l : List α} {i : Nat} {a : α}
    (h : l[i]? = some a) : l.set i a = l := by
  apply List.ext_getElem?
  intro n
  rw [List.getElem?_set]
  split_ifs with h1 h2
  · rw [← h1]; exact h.symm
  · exact absurd (List.getElem?_eq_some_iff.mp h).1 (by rw [h1] at h2; rw [h1]; exact h2)
  · rfl

theorem cons_middle_swap {α : Type} (b x : α) (A D : List α) :
    (b :: (A ++ x :: D)).Perm (x :: (A ++ b :: D)) := by
  refine List.Perm.trans (List.Perm.cons b List.perm_middle) ?_
  refine List.Perm.trans (List.Perm.swap x b _) ?_
  exact List.Perm.cons x List.perm_middle.symm

theorem set_set_perm {α : Type} :
    ∀ {l : List α} {i j : Nat} {a b : α},
      l[i]? = some a → l[j]? = some b → ((l.set i b).set j a).Perm l := by
  intro l
  induction l with
  | nil => intro i j a b ha _; simp at ha
  | cons x xs ih =>
    intro i j a b ha hb
    rcases i with _ | i <;> rcases j with _ | j
    · simp only [List.getElem?_cons_zero, Option.some_inj] at ha hb
      rw [List.set_cons_zero, List.set_cons_zero, ← ha]
    · simp only [List.getElem?_cons_zero, Option.some_inj] at ha
      simp only [List.getElem?_cons_succ] at hb
      have hj : j < xs.length := (List.getElem?_eq_some_iff.mp hb).1
      have hxsj : xs[j] = b := (List.getElem?_eq_some_iff.mp hb).2
      have h1 : xs = xs.take j ++ b :: xs.drop (j + 1) := by
        conv_lhs => rw [← List.take_append_drop j xs]
        rw [List.drop_eq_getElem_cons hj, hxsj]
      rw [List.set_cons_zero, List.set_cons_succ, ← ha,
        List.set_eq_take_cons_drop x hj]
      have key := cons_middle_swap b x (xs.take j) (xs.drop (j + 1))
      rw [← h1] at key
      exact key
    · simp only [List.getElem?_cons_zero, Option.some_inj] at hb
      simp only [List.getElem?_cons_succ] at ha
      have hi : i < xs.length := (List.getElem?_eq_some_iff.mp ha).1
      have hxsi : xs[i] = a := (List.getElem?_eq_some_iff.mp ha).2
      have h1 : xs = xs.take i ++ a :: xs.drop (i + 1) := by
        conv_lhs => rw [← List.take_append_drop i xs]
        rw [List.drop_eq_getElem_cons hi, hxsi]
      rw [List.set_cons_succ, List.set_cons_zero, ← hb,
        List.set_eq_take_cons_drop x hi]
      have key := cons_middle_swap a x (xs.take i) (xs.drop (i + 1))
      rw [← h1] at key
      exact key
    · simp only [List.getElem?_cons_succ] at ha hb
      rw [List.set_cons_succ, List.set_cons_succ]
      exact List.Perm.cons x (ih ha hb)

theorem listSwap_perm {α : Type} (l : List α) (i j : Nat) :
    (listSwap l i j).Perm l := by
  unfold listSwap
  cases ha : l[i]? with
  | none => exact List.Perm.refl l
  | some a =>
    cases hb : l[j]? with
    | none => exact List.Perm.refl l
    | some b => exact set_set_perm ha hb

theorem fyLoop_perm {α : Type} (rand : Nat → Nat) :
    ∀ (m : Nat) (l : List α), (fyLoop rand m l).Perm l := by
  intro m
  induction m with
  | zero => intro l; exact List.Perm.refl l
  | succ m ih =>
    intro l
    exact (ih (listSwap l (m + 1) (rand (m + 1)))).trans
      (listSwap_perm l (m + 1) (rand (m + 1)))

theorem fisherYates_perm {α : Type} (rand : Nat → Nat) (l : List α) :
    (fisherYates rand l).Perm l :=
  fyLoop_perm rand (l.length - 1) l

theorem fisherYates_length {α : Type} (rand : Nat → Nat) (l : List α) :
    (fisherYates rand l).length = l.length :=
  (fisherYates_perm rand l).length_eq

/-! ### Lemmas about the round-robin distribution -/

theorem distributeAux_length {α : Type} (k : Nat) :
    ∀ (l : List α) (ts : List (List α)) (idx : Nat),
      (distributeAux k l ts idx).length = ts.length := by
  intro l
  induction l with
  | nil => intro ts idx; rfl
  | cons x xs ih =>
    intro ts idx
    rw [distributeAux, ih, List.length_set]

theorem flatten_middle_perm {α : Type} (A D : List (List α)) (g : List α)
    (x : α) :
    ((A ++ (g ++ [x]) :: D).flatten).Perm ((A ++ g :: D).flatten ++ [x]) := by
  simp only [List.flatten_append, List.flatten_cons, List.append_assoc]
  exact List.Perm.append_left _ (List.Perm.append_left _ List.perm_append_comm)

theorem flatten_set_perm {α : Type} {ts : List (List α)} {idx : Nat}
    (hidx : idx < ts.length) (x : α) :
    ((ts.set idx (ts.getD idx [] ++ [x])).flatten).Perm (ts.flatten ++ [x]) := by
  have h1 : ts = ts.take idx ++ ts[idx] :: ts.drop (idx + 1) := by
    conv_lhs => rw [← List.take_append_drop idx ts]
    rw [List.drop_eq_getElem_cons hidx]
  have h2 : ts.set idx (ts.getD idx [] ++ [x])
      = ts.take idx ++ (ts[idx] ++ [x]) :: ts.drop (idx + 1) := by
    rw [List.getD_eq_getElem ts [] hidx]
    exact List.set_eq_take_cons_drop _ hidx
  rw [h2]
  have key := flatten_middle_perm (ts.take idx) (ts.drop (idx + 1)) ts[idx] x
  rw [← h1] at key
  exact key

theorem distributeAux_flatten_perm {α : Type} {k : Nat} (hk : 0 < k) :
    ∀ (l : List α) (ts : List (List α)) (idx : Nat),
      ts.length = k → idx < k →
      ((distributeAux k l ts idx).flatten).Perm (ts.flatten ++ l) := by
  intro l
  induction l with
  | nil => intro ts idx _ _; rw [distributeAux, List.append_nil]
  | cons x xs ih =>
    intro ts idx hlen hidx
    rw [distributeAux]
    have h1 := ih (ts.set idx (ts.getD idx [] ++ [x])) ((idx + 1) % k)
      (by rw [List.length_set, hlen]) (Nat.mod_lt _ hk)
    have hidx2 : idx < ts.length := by rw [hlen]; exact hidx
    have h2 := flatten_set_perm hidx2 x
    have h3 := h1.trans (List.Perm.append_right xs h2)
    rw [List.append_assoc, List.singleton_append] at h3
    exact h3

theorem flatten_replicate_nil {α : Type} :
    ∀ (k : Nat), ((List.replicate k ([] : List α)).flatten) = [] := by
  intro k
  induction k with
  | zero => rfl
  | succ k ih => rw [List.replicate_succ, List.flatten_cons, List.nil_append, ih]

theorem distribute_flatten_perm {α : Type} {k : Nat} (hk : 0 < k)
    (l : List α) : ((distribute k l).flatten).Perm l := by
  have h := distributeAux_flatten_perm hk l (List.replicate k []) 0
    (List.length_replicate k []) hk
  rwa [flatten_replicate_nil, List.nil_append] at h

theorem distribute_length {α : Type} (k : Nat) (l : List α) :
    (distribute k l).length = k := by
  rw [distribute, distributeAux_length, List.length_replicate]

theorem distributeAux_getD {α : Type} {k j : Nat} (hjk : j < k) :
    ∀ (l : List α) (ts : List (List α)) (idx : Nat),
      ts.length = k → idx < k →
      (distributeAux k l ts idx).getD j []
        = ts.getD j [] ++ roundRobinPicks k j idx l := by
  intro l
  induction l with
  | nil => intro ts idx _ _; rw [distributeAux, roundRobinPicks, List.append_nil]
  | cons x xs ih =>
    intro ts idx hlen hidx
    have hk : 0 < k := lt_of_le_of_lt (Nat.zero_le j) hjk
    rw [distributeAux, ih _ _ (by rw [List.length_set, hlen]) (Nat.mod_lt _ hk)]
    by_cases hij : idx = j
    · subst hij
      have hset : (ts.set idx (ts.getD idx [] ++ [x])).getD idx []
          = ts.getD idx [] ++ [x] := by
        rw [List.getD_eq_getElem?_getD, List.getElem?_set]
        simp [hlen ▸ hidx]
      rw [hset, roundRobinPicks]
      simp [List.append_assoc]
    · have hset : (ts.set idx (ts.getD idx [] ++ [x])).getD j []
          = ts.getD j [] := by
        rw [List.getD_eq_getElem?_getD, List.getElem?_set, if_neg hij,
          ← List.getD_eq_getElem?_getD]
      rw [hset, roundRobinPicks]
      simp [hij]

theorem roundRobinPicks_eq {α : Type} {k j : Nat} (hk : 0 < k) (d : α) :
    ∀ (l : List α) (idx : Nat), idx < k →
      roundRobinPicks k j idx l
        = ((List.range l.length).filter (fun p => (idx + p) % k == j)).map
            (fun p => l.getD p d) := by
  intro l
  induction l with
  | nil => intro idx _; rfl
  | cons x xs ih =>
    intro idx hidx
    have htail :
        (List.filter (fun p => (idx + p) % k == j)
            (List.map Nat.succ (List.range xs.length))).map
          (fun p => (x :: xs).getD p d)
          = roundRobinPicks k j ((idx + 1) % k) xs := by
      rw [List.filter_map, List.map_map,
        ih ((idx + 1) % k) (Nat.mod_lt _ hk)]
      have hfc : ∀ q ∈ List.range xs.length,
          ((fun p => (idx + p) % k == j) ∘ Nat.succ) q
            = (fun p => ((idx + 1) % k + p) % k == j) q := by
        intro q _
        simp only [Function.comp_apply]
        rw [Nat.mod_add_mod]
        have harg : idx + Nat.succ q = idx + 1 + q := by omega
        rw [harg]
      rw [List.filter_congr hfc]
      apply List.map_congr_left
      intro p _
      simp [Function.comp, List.getD_cons_succ]
    rw [roundRobinPicks]
    simp only [List.length_cons, List.range_succ_eq_map, List.filter_cons]
    have hq0 : ((idx + 0) % k == j) = (idx == j) := by
      rw [Nat.add_zero, Nat.mod_eq_of_lt hidx]
    rw [hq0]
    by_cases hij : idx = j
    · subst hij
      rw [if_pos rfl, if_pos (by simp), List.map_cons, List.getD_cons_zero,
        htail, List.singleton_append]
    · rw [if_neg hij, if_neg (by simp [hij]), htail, List.nil_append]

theorem length_filter_range_mod {k j : Nat} (hk : 0 < k) (hj : j < k) :
    ∀ (n : Nat),
      ((List.range n).filter (fun p => p % k == j)).length
        = n / k + (if j < n % k then 1 else 0) := by
  intro n
  induction n with
  | zero => simp
  | succ n ih =>
    rw [List.range_succ, List.filter_append, List.length_append, ih]
    have hr : n % k < k := Nat.mod_lt _ hk
    have hdm := Nat.div_add_mod n k
    have hsing : (List.filter (fun p => p % k == j) [n]).length
        = if n % k = j then 1 else 0 := by
      by_cases hjr : n % k = j <;>
        simp [List.filter_cons, List.filter_nil, hjr]
    rw [hsing]
    by_cases hrk : n % k + 1 = k
    · have h2 : (n + 1) / k = n / k + 1 ∧ (n + 1) % k = 0 := by
        rw [Nat.div_mod_unique hk]
        have hmul : k * (n / k + 1) = k * (n / k) + k := by ring
        omega
      rw [h2.1, h2.2]
      split_ifs <;> omega
    · have h2 : (n + 1) / k = n / k ∧ (n + 1) % k = n % k + 1 := by
        rw [Nat.div_mod_unique hk]
        omega
      rw [h2.1, h2.2]
      split_ifs <;> omega

theorem countP_mem_eq_one_of_count_sum {β : Type} [DecidableEq β] (b : β) :
    ∀ (L : List (List β)), (L.map (List.count b)).sum = 1 →
      L.countP (fun t => decide (b ∈ t)) = 1 := by
  intro L
  induction L with
  | nil => intro h; simp at h
  | cons t L ih =>
    intro h
    simp only [List.map_cons, List.sum_cons] at h
    rw [List.countP_cons]
    by_cases h0 : List.count b t = 0
    · have hb : b ∉ t := List.count_eq_zero.mp h0
      rw [ih (by omega)]
      simp [hb]
    · have hb : b ∈ t := List.count_pos_iff.mp (by omega)
      have hsum : (L.map (List.count b)).sum = 0 := by omega
      have hz : L.countP (fun t => decide (b ∈ t)) = 0 := by
        rw [List.countP_eq_zero]
        intro u hu
        have hcu : List.count b u = 0 :=
          List.sum_eq_zero_iff.mp hsum (List.count b u)
            (List.mem_map_of_mem _ hu)
        simp [List.count_eq_zero.mp hcu]
      rw [hz]
      simp [hb]

/-! ### Claim theorems -/

/-- C9: reset is idempotent — applying `resetAll` twice yields exactly the
state a single application yields, and that state is the IDLE state: empty
registry, no teams, blank hidden overlay, no pending timer, not locked,
not showing a result, inactivity clock cleared. -/
theorem c9_reset_idempotent (s : SessionState) :
    resetAll (resetAll s) = resetAll s
    ∧ (resetAll s).touchesData = []
    ∧ (resetAll s).teams = []
    ∧ (resetAll s).resultText = ""
    ∧ (resetAll s).resultShown = false
    ∧ (resetAll s).resultTimer = none
    ∧ (resetAll s).locked = false
    ∧ (resetAll s).showingResult = false
    ∧ (resetAll s).lastTouchTime = 0 :=
  ⟨rfl, rfl, rfl, rfl, rfl, rfl, rfl, rfl, rfl⟩

/-- C5: while the session is locked, every touch event — contact down,
move, up, or cancel — leaves the entire session state unchanged. -/
theorem c5_locked_events_ignored (s : SessionState) (h : s.locked = true)
    (ev : TouchEvent) : stepEvent s ev = s := by
  cases ev <;>
    simp [stepEvent, handleTouchStart, handleTouchMove, handleTouchEnd, h]

/-- Witness for C5 at a concrete locked state and a concrete down event. -/
theorem c5_locked_events_ignored_witness :
    lockedSample.locked = true
    ∧ stepEvent lockedSample (TouchEvent.down [(4, 5, 6)] 99) = lockedSample :=
  ⟨rfl, c5_locked_events_ignored lockedSample rfl (TouchEvent.down [(4, 5, 6)] 99)⟩

/-- C3: the inactivity condition of the draw loop holds exactly when the
session is neither locked nor showing a result, the registry is non-empty,
and strictly more than 5000 ms have passed since the last structural touch
change; in particular a tick never locks while the registry is empty. -/
theorem c3_lock_condition (mode : Mode) (k : Int) (randIdx : Nat)
    (rand : Nat → Nat) (now : Nat) (s : SessionState) :
    (shouldLock now s = true ↔
      (s.locked = false ∧ s.showingResult = false ∧ s.touchesData ≠ []
        ∧ INACTIVITY_TIMEOUT < now - s.lastTouchTime))
    ∧ (s.touchesData = [] → drawLoopStep mode k randIdx rand now s = s) := by
  constructor
  · simp only [shouldLock, Bool.and_eq_true, Bool.not_eq_true',
      decide_eq_true_eq]
    constructor
    · rintro ⟨⟨⟨h1, h2⟩, h3⟩, h4⟩
      exact ⟨h1, h2, List.length_pos.mp h4, h3⟩
    · rintro ⟨h1, h2, h3, h4⟩
      exact ⟨⟨⟨h1, h2⟩, h4⟩, List.length_pos.mpr h3⟩
  · intro h
    have hsl : shouldLock now s = false := by simp [shouldLock, h]
    rw [drawLoopStep, hsl]
    simp

/-- C7 counterexample: with the session not locked and id 5 absent from the
registry, a `touchend` for id 5 still changes `lastTouchTime` — the handler
calls `updateLastTouchTime()` unconditionally, so the call is not a no-op. -/
theorem c7_remove_absent_counterexample :
    getKey sampleOne.touchesData 5 = none
    ∧ sampleOne.locked = false
    ∧ (handleTouchEnd [5] 1234 sampleOne).lastTouchTime
        ≠ sampleOne.lastTouchTime := by
  refine ⟨by decide, rfl, ?_⟩
  decide

/-- C7 amended: removing an absent id while not locked leaves the registry
(and hence every contact) unchanged, but still sets `lastActivityTimestamp`
to the current time (and clears `showingResult`); all other fields are
untouched. -/
theorem c7_remove_absent_amended (s : SessionState) (id : Nat) (now : Nat)
    (hl : s.locked = false) (habs : getKey s.touchesData id = none) :
    (handleTouchEnd [id] now s).touchesData = s.touchesData
    ∧ (handleTouchEnd [id] now s).lastTouchTime = now
    ∧ (handleTouchEnd [id] now s).locked = s.locked
    ∧ (handleTouchEnd [id] now s).teams = s.teams
    ∧ (handleTouchEnd [id] now s).resultTimer = s.resultTimer
    ∧ (handleTouchEnd [id] now s).resultText = s.resultText
    ∧ (handleTouchEnd [id] now s).resultShown = s.resultShown
    ∧ (handleTouchEnd [id] now s).showingResult = false := by
  simp [handleTouchEnd, hl, habs]

/-- Witness for the amended C7 at a concrete state and absent id. -/
theorem c7_remove_absent_amended_witness :
    sampleOne.locked = false
    ∧ getKey sampleOne.touchesData 5 = none
    ∧ (handleTouchEnd [5] 1234 sampleOne).touchesData = sampleOne.touchesData
    ∧ (handleTouchEnd [5] 1234 sampleOne).lastTouchTime = 1234 :=
  ⟨rfl, by decide,
    (c7_remove_absent_amended sampleOne 5 1234 rfl (by decide)).1,
    (c7_remove_absent_amended sampleOne 5 1234 rfl (by decide)).2.1⟩

/-- The move fold never changes which ids are present nor any contact's
color or active flag (it rewrites positions only). -/
theorem moveFold_getKey_proj (touches : List (Nat × Int × Int)) :
    ∀ (reg : List (Nat × Contact)) (id : Nat),
      (getKey (touches.foldl
          (fun reg t =>
            match getKey reg t.1 with
            | some c => setKey reg t.1 { c with x := t.2.1, y := t.2.2 }
            | none => reg) reg) id).map (fun c => (c.color, c.active))
        = (getKey reg id).map (fun c => (c.color, c.active)) := by
  induction touches with
  | nil => intro reg id; rfl
  | cons t ts ih =>
    intro reg id
    rw [List.foldl_cons, ih]
    cases hg : getKey reg t.1 with
    | none => simp [hg]
    | some c =>
      simp only [hg]
      rw [getKey_setKey]
      by_cases hid : id = t.1
      · subst hid
        rw [if_pos rfl, hg]
        rfl
      · rw [if_neg hid]

/-- The move fold leaves entries whose id is not among the moved touches
entirely unchanged. -/
theorem moveFold_getKey_untouched (touches : List (Nat × Int × Int)) :
    ∀ (reg : List (Nat × Contact)) (id : Nat),
      id ∉ touches.map Prod.fst →
      getKey (touches.foldl
          (fun reg t =>
            match getKey reg t.1 with
            | some c => setKey reg t.1 { c with x := t.2.1, y := t.2.2 }
            | none => reg) reg) id
        = getKey reg id := by
  induction touches with
  | nil => intro reg id _; rfl
  | cons t ts ih =>
    intro reg id hid
    simp only [List.map_cons, List.mem_cons, not_or] at hid
    rw [List.foldl_cons, ih _ _ hid.2]
    cases hg : getKey reg t.1 with
    | none => simp [hg]
    | some c =>
      simp only [hg]
      rw [getKey_setKey, if_neg hid.1]

/-- C6: while not locked, a move event never changes the inactivity clock
(nor any field other than contact positions: presence, colors and active
flags are preserved, and ids not among the moved touches keep their whole
entry), while a contact-down and a contact-up/cancel event both set the
inactivity clock to the current time. -/
theorem c6_activity_clock (s : SessionState) (h : s.locked = false)
    (touches : List (Nat × Int × Int)) (ids : List Nat) (now : Nat) :
    (handleTouchMove touches s).lastTouchTime = s.lastTouchTime
    ∧ (handleTouchMove touches s).locked = s.locked
    ∧ (handleTouchMove touches s).showingResult = s.showingResult
    ∧ (handleTouchMove touches s).teams = s.teams
    ∧ (handleTouchMove touches s).resultTimer = s.resultTimer
    ∧ (handleTouchMove touches s).resultText = s.resultText
    ∧ (handleTouchMove touches s).resultShown = s.resultShown
    ∧ (∀ id, (getKey (handleTouchMove touches s).touchesData id).map
          (fun c => (c.color, c.active))
        = (getKey s.touchesData id).map (fun c => (c.color, c.active)))
    ∧ (∀ id, id ∉ touches.map Prod.fst →
        getKey (handleTouchMove touches s).touchesData id
          = getKey s.touchesData id)
    ∧ (handleTouchStart touches now s).lastTouchTime = now
    ∧ (handleTouchEnd ids now s).lastTouchTime = now := by
  refine ⟨?_, ?_, ?_, ?_, ?_, ?_, ?_, ?_, ?_, ?_, ?_⟩
  · simp [handleTouchMove, h]
  · simp [handleTouchMove, h]
  · simp [handleTouchMove, h]
  · simp [handleTouchMove, h]
  · simp [handleTouchMove, h]
  · simp [handleTouchMove, h]
  · simp [handleTouchMove, h]
  · intro id
    simp only [handleTouchMove, h, Bool.false_eq_true, if_false]
    exact moveFold_getKey_proj touches s.touchesData id
  · intro id hid
    simp only [handleTouchMove, h, Bool.false_eq_true, if_false]
    exact moveFold_getKey_untouched touches s.touchesData id hid
  · simp [handleTouchStart, h]
  · simp [handleTouchEnd, h]

/-- Witness for C6 at a concrete open state, move, down and up events. -/
theorem c6_activity_clock_witness :
    sampleTwo.locked = false
    ∧ (handleTouchMove [(1, 9, 9)] sampleTwo).lastTouchTime
        = sampleTwo.lastTouchTime
    ∧ (handleTouchStart [(2, 0, 0)] 555 sampleTwo).lastTouchTime = 555
    ∧ (handleTouchEnd [1] 777 sampleTwo).lastTouchTime = 777 :=
  ⟨rfl,
    (c6_activity_clock sampleTwo rfl [(1, 9, 9)] [1] 555).1,
    (c6_activity_clock sampleTwo rfl [(2, 0, 0)] [1] 555).2.2.2.2.2.2.2.2.2.1,
    (c6_activity_clock sampleTwo rfl [(1, 9, 9)] [1] 777).2.2.2.2.2.2.2.2.2.2⟩

/-- C10: invoked with an empty registry, the lock routine only sets the
two flags and returns — no timer is scheduled, no result is stored, no
team partition is built; in that state every touch event is ignored, the
inactivity condition never holds again, an absent timer never fires, and
only an external reset (mode or team-count change) restores the IDLE
state. -/
theorem c10_empty_lock (mode : Mode) (k : Int) (randIdx : Nat)
    (rand : Nat → Nat) (now : Nat) (s : SessionState)
    (h : s.touchesData = []) :
    lockAndShowResult mode k randIdx rand now s
        = { s with locked := true, showingResult := true }
    ∧ (∀ ev, stepEvent { s with locked := true, showingResult := true } ev
        = { s with locked := true, showingResult := true })
    ∧ (s.resultTimer = none → ∀ t,
        timerFire t { s with locked := true, showingResult := true }
          = { s with locked := true, showingResult := true })
    ∧ (∀ t, shouldLock t { s with locked := true, showingResult := true }
        = false)
    ∧ resetAll { s with locked := true, showingResult := true }
        = resetState := by
  refine ⟨?_, ?_, ?_, ?_, rfl⟩
  · simp [lockAndShowResult, h]
  · intro ev
    cases ev <;>
      simp [stepEvent, handleTouchStart, handleTouchMove, handleTouchEnd]
  · intro ht t
    simp [timerFire, ht]
  · intro t
    simp [shouldLock]

/-- Witness for C10 at the empty IDLE state. -/
theorem c10_empty_lock_witness :
    resetState.touchesData = []
    ∧ lockAndShowResult Mode.choose 2 0 (fun i => i) 777 resetState
        = { resetState with locked := true, showingResult := true }
    ∧ timerFire 99999 { resetState with locked := true, showingResult := true }
        = { resetState with locked := true, showingResult := true } :=
  ⟨rfl,
    (c10_empty_lock Mode.choose 2 0 (fun i => i) 777 resetState rfl).1,
    (c10_empty_lock Mode.choose 2 0 (fun i => i) 777 resetState rfl).2.2.1
      rfl 99999⟩

/-- C8: locking with a non-empty registry always (re)schedules the
auto-reset timer for exactly 10000 ms later: any previously pending timer
handle is replaced, the timer does not fire strictly before its deadline,
firing at the deadline yields the IDLE state (empty registry, blank hidden
overlay, no teams, unlocked), and an external reset cancels any pending
timer so no stale timer can fire into a new round. -/
theorem c8_auto_reset (mode : Mode) (k : Int) (randIdx : Nat)
    (rand : Nat → Nat) (now : Nat) (s : SessionState)
    (h : s.touchesData ≠ []) :
    (lockAndShowResult mode k randIdx rand now s).resultTimer
        = some (now + AUTO_RESET_DELAY)
    ∧ timerFire (now + AUTO_RESET_DELAY)
        (lockAndShowResult mode k randIdx rand now s) = resetState
    ∧ (∀ t, t < now + AUTO_RESET_DELAY →
        timerFire t (lockAndShowResult mode k randIdx rand now s)
          = lockAndShowResult mode k randIdx rand now s)
    ∧ resetState.touchesData = [] ∧ resetState.resultText = ""
    ∧ resetState.resultShown = false ∧ resetState.teams = []
    ∧ resetState.locked = false
    ∧ (∀ u : SessionState, (resetAll u).resultTimer = none) := by
  have hne : ¬ (s.touchesData.map Prod.fst).length = 0 := by
    simp [h]
  have htimer : (lockAndShowResult mode k randIdx rand now s).resultTimer
      = some (now + AUTO_RESET_DELAY) := by
    cases mode <;> simp [lockAndShowResult, hne, h]
  refine ⟨htimer, ?_, ?_, rfl, rfl, rfl, rfl, rfl, fun _ => rfl⟩
  · rw [timerFire, htimer]
    simp [resetAll]
  · intro t ht
    rw [timerFire, htimer]
    simp only [if_neg (by omega : ¬ now + AUTO_RESET_DELAY ≤ t)]

/-- Witness for C8 at a concrete one-contact state in choose mode. -/
theorem c8_auto_reset_witness :
    sampleOne.touchesData ≠ []
    ∧ (lockAndShowResult Mode.choose 1 0 (fun i => i) 6000 sampleOne).resultTimer
        = some (6000 + AUTO_RESET_DELAY)
    ∧ timerFire (6000 + AUTO_RESET_DELAY)
        (lockAndShowResult Mode.choose 1 0 (fun i => i) 6000 sampleOne)
        = resetState :=
  ⟨by decide,
    (c8_auto_reset Mode.choose 1 0 (fun i => i) 6000 sampleOne (by decide)).1,
    (c8_auto_reset Mode.choose 1 0 (fun i => i) 6000 sampleOne (by decide)).2.1⟩

/-- The touch-start fold changes only the registry, and does so exactly as
the corresponding registry-level fold. -/
theorem startFold_touchesData (touches : List (Nat × Int × Int)) :
    ∀ st : SessionState,
      ((touches.foldl
          (fun st t =>
            if st.touchesData.length < 10 then
              { st with
                  touchesData := setKey st.touchesData t.1 (mkContact t.1 t.2.1 t.2.2) }
            else st) st).touchesData)
        = touches.foldl
            (fun reg t =>
              if reg.length < 10 then setKey reg t.1 (mkContact t.1 t.2.1 t.2.2)
              else reg) st.touchesData := by
  induction touches with
  | nil => intro st; rfl
  | cons t ts ih =>
    intro st
    rw [List.foldl_cons, List.foldl_cons]
    by_cases hlt : st.touchesData.length < 10
    · rw [if_pos hlt, if_pos hlt, ih]
    · rw [if_neg hlt, if_neg hlt, ih]

/-- The registry-level touch-start fold keeps the registry sorted and never
grows it past 10 entries: each insertion is guarded by `length < 10`. -/
theorem startFoldReg_inv (touches : List (Nat × Int × Int)) :
    ∀ reg : List (Nat × Contact), SortedReg reg → reg.length ≤ 10 →
      SortedReg (touches.foldl
          (fun reg t =>
            if reg.length < 10 then setKey reg t.1 (mkContact t.1 t.2.1 t.2.2)
            else reg) reg)
      ∧ (touches.foldl
          (fun reg t =>
            if reg.length < 10 then setKey reg t.1 (mkContact t.1 t.2.1 t.2.2)
            else reg) reg).length ≤ 10 := by
  induction touches with
  | nil => intro reg hs hl; exact ⟨hs, hl⟩
  | cons t ts ih =>
    intro reg hs hl
    rw [List.foldl_cons]
    by_cases hlt : reg.length < 10
    · rw [if_pos hlt]
      refine ih _ (setKey_sorted hs _ _) ?_
      have := setKey_length_le reg t.1 (mkContact t.1 t.2.1 t.2.2)
      omega
    · rw [if_neg hlt]
      exact ih reg hs hl

/-- With the registry at capacity, the touch-start fold is the identity. -/
theorem startFoldReg_full (touches : List (Nat × Int × Int)) :
    ∀ reg : List (Nat × Contact), reg.length = 10 →
      touches.foldl
          (fun reg t =>
            if reg.length < 10 then setKey reg t.1 (mkContact t.1 t.2.1 t.2.2)
            else reg) reg = reg := by
  induction touches with
  | nil => intro reg _; rfl
  | cons t ts ih =>
    intro reg hl
    rw [List.foldl_cons, if_neg (by omega), ih reg hl]

/-- The move fold keeps the registry sorted and keeps its length. -/
theorem moveFold_inv (touches : List (Nat × Int × Int)) :
    ∀ reg : List (Nat × Contact), SortedReg reg →
      SortedReg (touches.foldl
          (fun reg t =>
            match getKey reg t.1 with
            | some c => setKey reg t.1 { c with x := t.2.1, y := t.2.2 }
            | none => reg) reg)
      ∧ (touches.foldl
          (fun reg t =>
            match getKey reg t.1 with
            | some c => setKey reg t.1 { c with x := t.2.1, y := t.2.2 }
            | none => reg) reg).length = reg.length := by
  induction touches with
  | nil => intro reg hs; exact ⟨hs, rfl⟩
  | cons t ts ih =>
    intro reg hs
    rw [List.foldl_cons]
    cases hg : getKey reg t.1 with
    | none =>
      simp only [hg]
      exact ih reg hs
    | some c =>
      simp only [hg]
      obtain ⟨ih1, ih2⟩ := ih (setKey reg t.1 { c with x := t.2.1, y := t.2.2 })
        (setKey_sorted hs _ _)
      exact ⟨ih1, by rw [ih2, setKey_length_of_present hs hg]⟩

/-- The touch-end fold keeps the registry sorted and never grows it. -/
theorem endFold_inv (ids : List Nat) :
    ∀ reg : List (Nat × Contact), SortedReg reg →
      SortedReg (ids.foldl
          (fun reg id =>
            match getKey reg id with
            | some _ => delKey reg id
            | none => reg) reg)
      ∧ (ids.foldl
          (fun reg id =>
            match getKey reg id with
            | some _ => delKey reg id
            | none => reg) reg).length ≤ reg.length := by
  induction ids with
  | nil => intro reg hs; exact ⟨hs, le_refl _⟩
  | cons id ids ih =>
    intro reg hs
    rw [List.foldl_cons]
    cases hg : getKey reg id with
    | none =>
      simp only [hg]
      exact ih reg hs
    | some c =>
      simp only [hg]
      obtain ⟨ih1, ih2⟩ := ih (delKey reg id) (delKey_sorted hs id)
      exact ⟨ih1, le_trans ih2 (delKey_length_le reg id)⟩

/-- Every raw touch event keeps the registry sorted and within capacity. -/
theorem stepEvent_inv (s : SessionState) (ev : TouchEvent)
    (hs : SortedReg s.touchesData) (hl : s.touchesData.length ≤ 10) :
    SortedReg (stepEvent s ev).touchesData
    ∧ (stepEvent s ev).touchesData.length ≤ 10 := by
  cases ev with
  | down touches now =>
    rw [stepEvent, handleTouchStart]
    by_cases hlck : s.locked
    · rw [if_pos hlck]; exact ⟨hs, hl⟩
    · rw [if_neg hlck]
      dsimp only
      rw [startFold_touchesData touches { s with showingResult := false }]
      exact startFoldReg_inv touches s.touchesData hs hl
  | move touches =>
    rw [stepEvent, handleTouchMove]
    by_cases hlck : s.locked
    · rw [if_pos hlck]; exact ⟨hs, hl⟩
    · rw [if_neg hlck]
      dsimp only
      obtain ⟨h1, h2⟩ := moveFold_inv touches s.touchesData hs
      exact ⟨h1, by rw [h2]; exact hl⟩
  | lift ids now =>
    rw [stepEvent, handleTouchEnd]
    by_cases hlck : s.locked
    · rw [if_pos hlck]; exact ⟨hs, hl⟩
    · rw [if_neg hlck]
      dsimp only
      obtain ⟨h1, h2⟩ := endFold_inv ids s.touchesData hs
      exact ⟨h1, le_trans h2 hl⟩
  | cancel ids now =>
    rw [stepEvent, handleTouchEnd]
    by_cases hlck : s.locked
    · rw [if_pos hlck]; exact ⟨hs, hl⟩
    · rw [if_neg hlck]
      dsimp only
      obtain ⟨h1, h2⟩ := endFold_inv ids s.touchesData hs
      exact ⟨h1, le_trans h2 hl⟩

/-- The registry invariant holds along any sequence of touch events. -/
theorem runEvents_inv (evs : List TouchEvent) :
    ∀ s : SessionState, SortedReg s.touchesData →
      s.touchesData.length ≤ 10 →
      SortedReg (runEvents s evs).touchesData
      ∧ (runEvents s evs).touchesData.length ≤ 10 := by
  induction evs with
  | nil => intro s hs hl; exact ⟨hs, hl⟩
  | cons ev evs ih =>
    intro s hs hl
    obtain ⟨h1, h2⟩ := stepEvent_inv s ev hs hl
    exact ih (stepEvent s ev) h1 h2

/-- C4: under any sequence of contact-down, move and up/cancel events
starting from the initial state the registry never exceeds 10 contacts,
and a contact-down event arriving with the registry at 10 leaves the
registry mapping unchanged. -/
theorem c4_capacity :
    (∀ evs : List TouchEvent,
      (runEvents resetState evs).touchesData.length ≤ 10)
    ∧ (∀ (s : SessionState) (touches : List (Nat × Int × Int)) (now : Nat),
        s.touchesData.length = 10 → s.locked = false →
        (handleTouchStart touches now s).touchesData = s.touchesData) := by
  constructor
  · intro evs
    exact (runEvents_inv evs resetState (by simp [SortedReg, resetState])
      (by simp [resetState])).2
  · intro s touches now hlen hl
    rw [handleTouchStart, if_neg (by simp [hl])]
    dsimp only
    rw [startFold_touchesData touches { s with showingResult := false }]
    exact startFoldReg_full touches s.touchesData hlen

/-- Witness for C4: one concrete event sequence, and a down event at the
full ten-contact state. -/
theorem c4_capacity_witness :
    (runEvents resetState [TouchEvent.down [(1, 1, 1)] 3]).touchesData.length ≤ 10
    ∧ sampleTen.touchesData.length = 10
    ∧ (handleTouchStart [(99, 1, 1)] 5 sampleTen).touchesData
        = sampleTen.touchesData :=
  ⟨c4_capacity.1 [TouchEvent.down [(1, 1, 1)] 3], by decide,
    c4_capacity.2 sampleTen [(99, 1, 1)] 5 (by decide) rfl⟩

/-- C2: at lock in choose mode, the chosen id is taken from the snapshot;
afterwards the chosen contact is the only active one — every other contact
has `active = false` and exactly one contact in the registry remains
active. -/
theorem c2_choose_winner (k : Int) (randIdx : Nat) (rand : Nat → Nat)
    (now : Nat) (s : SessionState)
    (h : s.touchesData ≠ [])
    (hidx : randIdx < s.touchesData.length)
    (hact : ∀ e ∈ s.touchesData, e.2.active = true)
    (hnd : (s.touchesData.map Prod.fst).Nodup) :
    (s.touchesData.map Prod.fst).getD randIdx 0 ∈ s.touchesData.map Prod.fst
    ∧ (∀ e ∈ (lockAndShowResult Mode.choose k randIdx rand now s).touchesData,
        (e.2.active = true ↔
          e.1 = (s.touchesData.map Prod.fst).getD randIdx 0))
    ∧ (lockAndShowResult Mode.choose k randIdx rand now s).touchesData.countP
        (fun e => e.2.active) = 1 := by
  have hlen : randIdx < (s.touchesData.map Prod.fst).length := by
    rw [List.length_map]; exact hidx
  have hmem : (s.touchesData.map Prod.fst).getD randIdx 0
      ∈ s.touchesData.map Prod.fst := by
    rw [List.getD_eq_getElem _ _ hlen]
    exact List.getElem_mem hlen
  have hcond : ¬ ((s.touchesData.map Prod.fst).length = 0) := by simp [h]
  have hnorm : (s.touchesData.map Prod.fst).getD randIdx 0
      = (Option.map Prod.fst s.touchesData[randIdx]?).getD 0 := by
    simp [List.getD_eq_getElem?_getD]
  have hreg : (lockAndShowResult Mode.choose k randIdx rand now s).touchesData
      = s.touchesData.map (fun e =>
          if e.1 ≠ (s.touchesData.map Prod.fst).getD randIdx 0
          then (e.1, { e.2 with active := false }) else e) := by
    simp only [lockAndShowResult]
    rw [if_neg hcond]
  refine ⟨hmem, ?_, ?_⟩
  · intro e' he'
    rw [hreg] at he'
    obtain ⟨e, he, rfl⟩ := List.mem_map.mp he'
    by_cases hc : e.1 = (s.touchesData.map Prod.fst).getD randIdx 0
    · simp [hc, hact e he]
    · rw [if_pos hc]
      exact iff_of_false (by simp) hc
  · rw [hreg, List.countP_map]
    have hstep : List.countP
        ((fun (e : Nat × Contact) => e.2.active) ∘
          (fun e =>
            if e.1 ≠ (s.touchesData.map Prod.fst).getD randIdx 0
            then (e.1, { e.2 with active := false }) else e)) s.touchesData
        = List.countP
            (fun (e : Nat × Contact) =>
              e.1 == (s.touchesData.map Prod.fst).getD randIdx 0)
            s.touchesData := by
      apply List.countP_congr
      intro e he
      by_cases hc : e.1 = (s.touchesData.map Prod.fst).getD randIdx 0
      · simp [Function.comp, hc, hact e he]
      · have hfe : (if e.1 ≠ (s.touchesData.map Prod.fst).getD randIdx 0
            then (e.1, { e.2 with active := false }) else e)
            = (e.1, { e.2 with active := false }) := if_pos hc
        simp only [Function.comp_apply, hfe]
        exact iff_of_false (by simp) (by simpa using hc)
    rw [hstep]
    have hcnt : List.countP
        (fun (e : Nat × Contact) =>
          e.1 == (s.touchesData.map Prod.fst).getD randIdx 0) s.touchesData
        = List.count ((s.touchesData.map Prod.fst).getD randIdx 0)
            (s.touchesData.map Prod.fst) := by
      rw [List.count, List.countP_map]
      rfl
    rw [hcnt]
    exact List.count_eq_one_of_mem hnd hmem

/-- Witness for C2 at a concrete two-contact state: index 1 picks id 4. -/
theorem c2_choose_winner_witness :
    (sampleTwo.touchesData.map Prod.fst).getD 1 0
        ∈ sampleTwo.touchesData.map Prod.fst
    ∧ (lockAndShowResult Mode.choose 3 1 (fun i => i) 999
        sampleTwo).touchesData.countP (fun e => e.2.active) = 1 :=
  ⟨(c2_choose_winner 3 1 (fun i => i) 999 sampleTwo (by decide) (by decide)
      (by decide) (by decide)).1,
    (c2_choose_winner 3 1 (fun i => i) 999 sampleTwo (by decide) (by decide)
      (by decide) (by decide)).2.2⟩

/-- Reading any position of the freshly created list of empty teams gives
the empty team. -/
theorem replicate_getD_nil {γ : Type} (m j : Nat) :
    (List.replicate m ([] : List γ)).getD j [] = [] := by
  rw [List.getD_eq_getElem?_getD, List.getElem?_replicate]
  split_ifs <;> rfl

/-- C1: in team mode with a non-empty snapshot of `n` contacts and any
configured integer team count `k`, the engine deals the Fisher–Yates
shuffle of the snapshot round-robin into exactly `max 1 (min k n)` teams;
the team sizes sum to `n` and pairwise differ by at most one; every
snapshot id lands in exactly one team; and the contact at shuffled
position `p` lands in the team of index `p` modulo the clamped count,
which for `k ≥ 1` equals `p` modulo `k`. -/
theorem c1_team_partition (k : Int) (randIdx : Nat) (rand : Nat → Nat)
    (now : Nat) (s : SessionState)
    (h : s.touchesData ≠ [])
    (_hr : ∀ i, rand i ≤ i)
    (hnd : (s.touchesData.map Prod.fst).Nodup) :
    ((lockAndShowResult Mode.team k randIdx rand now s).teams
        = distribute (clampTeamCount k s.touchesData.length)
            (fisherYates rand (s.touchesData.map (fun e => (e.1, e.2.color)))))
    ∧ (((lockAndShowResult Mode.team k randIdx rand now s).teams.length : Int)
        = max 1 (min k (s.touchesData.length : Int)))
    ∧ (((lockAndShowResult Mode.team k randIdx rand now s).teams.map
        List.length).sum = s.touchesData.length)
    ∧ (∀ i j,
        i < (lockAndShowResult Mode.team k randIdx rand now s).teams.length →
        j < (lockAndShowResult Mode.team k randIdx rand now s).teams.length →
        ((lockAndShowResult Mode.team k randIdx rand now s).teams.getD i
            []).length
          ≤ ((lockAndShowResult Mode.team k randIdx rand now s).teams.getD j
              []).length + 1)
    ∧ (∀ id ∈ s.touchesData.map Prod.fst,
        (lockAndShowResult Mode.team k randIdx rand now s).teams.countP
          (fun t => decide (id ∈ t.map Prod.fst)) = 1)
    ∧ (∀ p, p < s.touchesData.length →
        (fisherYates rand
            (s.touchesData.map (fun e => (e.1, e.2.color)))).getD p (0, "")
          ∈ (lockAndShowResult Mode.team k randIdx rand now s).teams.getD
              (p % clampTeamCount k s.touchesData.length) []
        ∧ (1 ≤ k →
            ((p % clampTeamCount k s.touchesData.length : Nat) : Int)
              = (p : Int) % k)) := by
  have hn : 0 < s.touchesData.length := List.length_pos.mpr h
  have hteams : (lockAndShowResult Mode.team k randIdx rand now s).teams
      = distribute (clampTeamCount k s.touchesData.length)
          (fisherYates rand (s.touchesData.map (fun e => (e.1, e.2.color)))) := by
    simp [lockAndShowResult, h]
  have hkc_pos : 0 < clampTeamCount k s.touchesData.length := by
    rw [clampTeamCount]; split_ifs <;> omega
  have hkc_le : clampTeamCount k s.touchesData.length ≤ s.touchesData.length := by
    rw [clampTeamCount]; split_ifs <;> omega
  have hshuflen :
      (fisherYates rand (s.touchesData.map (fun e => (e.1, e.2.color)))).length
        = s.touchesData.length := by
    rw [fisherYates_length, List.length_map]
  have hflat := distribute_flatten_perm hkc_pos
    (fisherYates rand (s.touchesData.map (fun e => (e.1, e.2.color))))
  have htlen := distribute_length (clampTeamCount k s.touchesData.length)
    (fisherYates rand (s.touchesData.map (fun e => (e.1, e.2.color))))
  have hgetD : ∀ m, m < clampTeamCount k s.touchesData.length →
      (distribute (clampTeamCount k s.touchesData.length)
          (fisherYates rand
            (s.touchesData.map (fun e => (e.1, e.2.color))))).getD m []
        = roundRobinPicks (clampTeamCount k s.touchesData.length) m 0
            (fisherYates rand (s.touchesData.map (fun e => (e.1, e.2.color)))) := by
    intro m hm
    rw [distribute, distributeAux_getD hm _ _ _ (List.length_replicate _ _)
      hkc_pos, replicate_getD_nil, List.nil_append]
  have hlenTeam : ∀ m, m < clampTeamCount k s.touchesData.length →
      ((distribute (clampTeamCount k s.touchesData.length)
          (fisherYates rand
            (s.touchesData.map (fun e => (e.1, e.2.color))))).getD m []).length
        = s.touchesData.length / clampTeamCount k s.touchesData.length
          + (if m < s.touchesData.length % clampTeamCount k s.touchesData.length
              then 1 else 0) := by
    intro m hm
    have hfc2 : ∀ q ∈ List.range
        (fisherYates rand
          (s.touchesData.map (fun e => (e.1, e.2.color)))).length,
        (fun p => (0 + p) % clampTeamCount k s.touchesData.length == m) q
          = (fun p => p % clampTeamCount k s.touchesData.length == m) q := by
      intro q _
      simp
    rw [hgetD m hm, roundRobinPicks_eq hkc_pos (0, "") _ 0 hkc_pos,
      List.length_map, List.filter_congr hfc2,
      hshuflen, length_filter_range_mod hkc_pos hm]
  refine ⟨hteams, ?_, ?_, ?_, ?_, ?_⟩
  · rw [hteams, htlen, clampTeamCount]
    split_ifs <;> omega
  · rw [hteams, ← List.length_flatten, hflat.length_eq, hshuflen]
  · intro i j hi hj
    rw [hteams, htlen] at hi hj
    rw [hteams, hlenTeam i hi, hlenTeam j hj]
    split_ifs <;> omega
  · intro id hid
    rw [hteams]
    have hPerm1 : ((distribute (clampTeamCount k s.touchesData.length)
        (fisherYates rand
          (s.touchesData.map (fun e => (e.1, e.2.color))))).flatten.map
          Prod.fst).Perm (s.touchesData.map Prod.fst) := by
      have h2 := fisherYates_perm rand
        (s.touchesData.map (fun e => (e.1, e.2.color)))
      simpa [List.map_map, Function.comp] using (hflat.trans h2).map Prod.fst
    have hcount : List.count id
        ((distribute (clampTeamCount k s.touchesData.length)
          (fisherYates rand
            (s.touchesData.map (fun e => (e.1, e.2.color))))).flatten.map
              Prod.fst) = 1 := by
      rw [hPerm1.count_eq]
      exact List.count_eq_one_of_mem hnd hid
    rw [List.map_flatten, List.count_flatten] at hcount
    have hone := countP_mem_eq_one_of_count_sum id
      ((distribute (clampTeamCount k s.touchesData.length)
        (fisherYates rand
          (s.touchesData.map (fun e => (e.1, e.2.color))))).map
            (List.map Prod.fst)) hcount
    rw [List.countP_map] at hone
    simpa [Function.comp] using hone
  · intro p hp
    constructor
    · rw [hteams, hgetD (p % clampTeamCount k s.touchesData.length)
        (Nat.mod_lt _ hkc_pos),
        roundRobinPicks_eq hkc_pos (0, "") _ 0 hkc_pos]
      apply List.mem_map_of_mem
      rw [List.mem_filter]
      refine ⟨?_, ?_⟩
      · rw [hshuflen]; exact List.mem_range.mpr hp
      · simp
    · intro hk1
      rw [clampTeamCount]
      split_ifs with h1 h2
      · omega
      · have hpn : p % s.touchesData.length = p := Nat.mod_eq_of_lt hp
        rw [hpn]
        have h3 : (p : Int) % k = p :=
          Int.emod_eq_of_lt (Int.natCast_nonneg p) (by omega)
        exact h3.symm
      · have h4 : ((p % k.toNat : Nat) : Int)
            = (p : Int) % ((k.toNat : Nat) : Int) := by
          push_cast
          rfl
        rw [h4, Int.toNat_of_nonneg (by omega : (0 : Int) ≤ k)]

/-- Witness for C1 at a two-contact state, team count 2, and the draw
sequence that always picks index 0. -/
theorem c1_team_partition_witness :
    sampleTwo.touchesData ≠ []
    ∧ (((lockAndShowResult Mode.team 2 0 (fun _ => 0) 999
          sampleTwo).teams.length : Int)
        = max 1 (min 2 (sampleTwo.touchesData.length : Int)))
    ∧ ((lockAndShowResult Mode.team 2 0 (fun _ => 0) 999 sampleTwo).teams.map
        List.length).sum = sampleTwo.touchesData.length
    ∧ (lockAndShowResult Mode.team 2 0 (fun _ => 0) 999 sampleTwo).teams.countP
        (fun t => decide (1 ∈ t.map Prod.fst)) = 1 :=
  ⟨by decide,
    (c1_team_partition 2 0 (fun _ => 0) 999 sampleTwo (by decide)
      (fun i => Nat.zero_le i) (by decide)).2.1,
    (c1_team_partition 2 0 (fun _ => 0) 999 sampleTwo (by decide)
      (fun i => Nat.zero_le i) (by decide)).2.2.1,
    (c1_team_partition 2 0 (fun _ => 0) 999 sampleTwo (by decide)
      (fun i => Nat.zero_le i) (by decide)).2.2.2.2.1 1 (by decide)⟩
